import Mathlib

/-!
Verification of the route geometry and interaction engine of
tracking_routs_drawer.py: coordinate conversion between canvas (device)
and grid coordinates, the route store with its mutation primitives,
tolerance-based hit testing for points and segments, arc-length sampling
along a polyline, and feature extraction, shallowly embedded in Lean.

Grid points are integer pairs; the floating-point geometry of the source
is modelled over the real numbers.
-/

namespace TrackingRoutesDrawer

/-- A grid-aligned point: integer graph coordinates, as stored in routes. -/
abbrev GPoint := ℤ × ℤ

/-- A point with real coordinates (the geometry helpers compute with
floats, modelled as real numbers). -/
abbrev RPoint := ℝ × ℝ

/-- The grid cell size in canvas pixels (self.grid_size = 20). -/
noncomputable def grid_size : ℝ := 20

/-- Canvas x coordinate of the origin (self.origin_x = 0). -/
noncomputable def origin_x : ℝ := 0

/-- Canvas y coordinate of the origin (self.origin_y = 0). -/
noncomputable def origin_y : ℝ := 0

open scoped Classical in
/-- Python's built-in round applied to a real argument: nearest integer,
ties resolved to the even integer (banker's rounding). -/
noncomputable def pyRound (x : ℝ) : ℤ :=
  if Int.fract x < 1 / 2 then ⌊x⌋
  else if 1 / 2 < Int.fract x then ⌊x⌋ + 1
  else if Even ⌊x⌋ then ⌊x⌋ else ⌊x⌋ + 1

/-- canvas_to_coord_x: convert a canvas x coordinate to a graph
coordinate, round((canvas_x - origin_x) / grid_size). -/
noncomputable def canvas_to_coord_x (canvas_x : ℝ) : ℤ :=
  pyRound ((canvas_x - origin_x) / grid_size)

/-- canvas_to_coord_y: convert a canvas y coordinate to a graph
coordinate (y increases downward). -/
noncomputable def canvas_to_coord_y (canvas_y : ℝ) : ℤ :=
  pyRound ((canvas_y - origin_y) / grid_size)

/-- coord_to_canvas_x: convert a graph x coordinate to a canvas
coordinate, origin_x + coord_x * grid_size. -/
noncomputable def coord_to_canvas_x (coord_x : ℤ) : ℝ :=
  origin_x + (coord_x : ℝ) * grid_size

/-- coord_to_canvas_y: convert a graph y coordinate to a canvas
coordinate (y increases downward). -/
noncomputable def coord_to_canvas_y (coord_y : ℤ) : ℝ :=
  origin_y + (coord_y : ℝ) * grid_size

/-- The mutable route data of the drawer: self.routes (the committed
routes, each a list of grid points) and self.current_route. -/
structure Store where
  routes : List (List GPoint)
  current : List GPoint
  deriving DecidableEq

/-- A route reference as used by the event handlers: route index -1
denotes the current route, a natural index denotes a committed route. -/
inductive RouteRef where
  | current : RouteRef
  | committed (idx : ℕ) : RouteRef
  deriving DecidableEq

/-- The drag-commit mutation performed by on_left_release: an unchecked
assignment route[point_idx] = new point. A reference whose route or
point index is out of range makes the Python assignment raise
IndexError, modelled as the result none. -/
def move_point (s : Store) (r : RouteRef) (i : ℕ) (p : GPoint) : Option Store :=
  match r with
  | RouteRef.current =>
      if i < s.current.length then some { s with current := s.current.set i p }
      else none
  | RouteRef.committed rid =>
      if rid < s.routes.length ∧ i < (s.routes.getD rid []).length then
        some { s with routes := s.routes.set rid ((s.routes.getD rid []).set i p) }
      else none

/-- remove_point: pop the point at the given index after an explicit
bounds check (out of range leaves the store untouched); a committed
route that becomes empty is popped from self.routes. -/
def remove_point (s : Store) (r : RouteRef) (i : ℕ) : Store :=
  match r with
  | RouteRef.current =>
      if i < s.current.length then { s with current := s.current.eraseIdx i }
      else s
  | RouteRef.committed rid =>
      if rid < s.routes.length ∧ i < (s.routes.getD rid []).length then
        if (s.routes.getD rid []).eraseIdx i = [] then
          { s with routes := s.routes.eraseIdx rid }
        else { s with routes := s.routes.set rid ((s.routes.getD rid []).eraseIdx i) }
      else s

/-- Python list.insert semantics: an index beyond the length appends at
the end (the index is clamped to the length). -/
def pyInsert {α : Type} : List α → ℕ → α → List α
  | l, 0, a => a :: l
  | [], _ + 1, a => [a]
  | b :: t, n + 1, a => b :: pyInsert t n a

/-- insert_point_in_route: insert a new point at the given index; the
current route is never bounds-checked, a committed route index is
checked and out of range is a no-op. -/
def insert_point_in_route (s : Store) (r : RouteRef) (i : ℕ) (p : GPoint) : Store :=
  match r with
  | RouteRef.current => { s with current := pyInsert s.current i p }
  | RouteRef.committed rid =>
      if rid < s.routes.length then
        { s with routes := s.routes.set rid (pyInsert (s.routes.getD rid []) i p) }
      else s

/-- Euclidean distance between two consecutive route points,
sqrt((x2 - x1)^2 + (y2 - y1)^2). -/
noncomputable def segDist (p q : RPoint) : ℝ :=
  Real.sqrt ((q.1 - p.1) ^ 2 + (q.2 - p.2) ^ 2)

/-- calculate_route_length: sum of the Euclidean distances between
consecutive points; 0 for fewer than two points. -/
noncomputable def calculate_route_length : List RPoint → ℝ
  | a :: b :: t => segDist a b + calculate_route_length (b :: t)
  | _ => 0

open scoped Classical in
/-- calculate_euclidean_distance: straight-line distance from the first
to the last point; 0 for fewer than two points. -/
noncomputable def calculate_euclidean_distance (route : List RPoint) : ℝ :=
  if route.length < 2 then 0
  else
    Real.sqrt (((route.getLastD (0, 0)).1 - (route.headD (0, 0)).1) ^ 2 +
      ((route.getLastD (0, 0)).2 - (route.headD (0, 0)).2) ^ 2)

open scoped Classical in
/-- The segment walk of get_point_at_distance: the loop over consecutive
segments keeping the remaining distance d. When the current segment
covers d, interpolate (returning the segment start for a zero-length
segment); otherwise continue with d reduced by the segment length, and
return the final point when the segments are exhausted. -/
noncomputable def walkRoute : RPoint → RPoint → List RPoint → ℝ → RPoint
  | a, b, t, d =>
    if d ≤ segDist a b then
      if segDist a b = 0 then a
      else (a.1 + d / segDist a b * (b.1 - a.1), a.2 + d / segDist a b * (b.2 - a.2))
    else
      match t with
      | [] => b
      | c :: t2 => walkRoute b c t2 (d - segDist a b)

open scoped Classical in
/-- get_point_at_distance: the coordinates at a given arc-length
distance along the route; the single point for a one-point route, the
fallback (0, 0) for an empty route, the first point for a distance
at most 0. -/
noncomputable def get_point_at_distance (route : List RPoint) (d : ℝ) : RPoint :=
  match route with
  | [] => (0, 0)
  | [p] => p
  | a :: b :: t => if d ≤ 0 then a else walkRoute a b t d

/-- get_middle_point: the point at half the total route length. -/
noncomputable def get_middle_point (route : List RPoint) : RPoint :=
  get_point_at_distance route (calculate_route_length route / 2)

/-- get_third_points: the points at one third and two thirds of the
total route length. -/
noncomputable def get_third_points (route : List RPoint) : RPoint × RPoint :=
  (get_point_at_distance route (calculate_route_length route / 3),
   get_point_at_distance route (2 * calculate_route_length route / 3))

/-- Device-space distance from a canvas position to the canvas image of
a grid point, as computed inside find_point_at_position. -/
noncomputable def pointDist (cx cy : ℝ) (p : GPoint) : ℝ :=
  Real.sqrt ((cx - coord_to_canvas_x p.1) ^ 2 + (cy - coord_to_canvas_y p.2) ^ 2)

open scoped Classical in
/-- The in-order scan of one route by find_point_at_position, carrying
the index of the first scanned point: the first point within tolerance
wins. -/
noncomputable def scanPoints (cx cy tol : ℝ) : List GPoint → ℕ → Option ℕ
  | [], _ => none
  | p :: t, i =>
      if pointDist cx cy p ≤ tol then some i else scanPoints cx cy tol t (i + 1)

open scoped Classical in
/-- The scan of the committed routes by find_point_at_position, in
ascending route order, carrying the index of the first scanned route. -/
noncomputable def scanRoutes (cx cy tol : ℝ) : List (List GPoint) → ℕ → Option (ℕ × ℕ)
  | [], _ => none
  | rt :: rest, rid =>
      match scanPoints cx cy tol rt 0 with
      | some i => some (rid, i)
      | none => scanRoutes cx cy tol rest (rid + 1)

/-- find_point_at_position: scan the current route first, then the
committed routes in order, and return the first point whose device
distance to the position is within tolerance. -/
noncomputable def find_point_at_position (s : Store) (cx cy tol : ℝ) :
    Option (RouteRef × ℕ) :=
  match scanPoints cx cy tol s.current 0 with
  | some i => some (RouteRef.current, i)
  | none =>
      match scanRoutes cx cy tol s.routes 0 with
      | some ri => some (RouteRef.committed ri.1, ri.2)
      | none => none

/-- The squared canvas length of the segment between two grid points, as
computed by is_point_on_line. -/
noncomputable def lineLenSq (p1 p2 : GPoint) : ℝ :=
  (coord_to_canvas_x p2.1 - coord_to_canvas_x p1.1) ^ 2 +
    (coord_to_canvas_y p2.2 - coord_to_canvas_y p1.2) ^ 2

/-- The clamped projection parameter t of is_point_on_line:
max(0, min(1, dot(P - A, B - A) / |B - A|^2)). -/
noncomputable def lineParam (cx cy : ℝ) (p1 p2 : GPoint) : ℝ :=
  max 0 (min 1
    (((cx - coord_to_canvas_x p1.1) * (coord_to_canvas_x p2.1 - coord_to_canvas_x p1.1) +
      (cy - coord_to_canvas_y p1.2) * (coord_to_canvas_y p2.2 - coord_to_canvas_y p1.2)) /
      lineLenSq p1 p2))

/-- The distance from a canvas position to the closest point
A + t * (B - A) of the segment, as computed by is_point_on_line. -/
noncomputable def segClosestDist (cx cy : ℝ) (p1 p2 : GPoint) : ℝ :=
  Real.sqrt
    ((cx - (coord_to_canvas_x p1.1 +
        lineParam cx cy p1 p2 * (coord_to_canvas_x p2.1 - coord_to_canvas_x p1.1))) ^ 2 +
     (cy - (coord_to_canvas_y p1.2 +
        lineParam cx cy p1 p2 * (coord_to_canvas_y p2.2 - coord_to_canvas_y p1.2))) ^ 2)

/-- is_point_on_line: a canvas position is on the segment when the
segment is not degenerate (squared length 0 returns False immediately)
and the distance to the closest segment point is within tolerance. -/
def is_point_on_line (cx cy tol : ℝ) (p1 p2 : GPoint) : Prop :=
  ¬ lineLenSq p1 p2 = 0 ∧ segClosestDist cx cy p1 p2 ≤ tol

open scoped Classical in
/-- The in-order scan of the consecutive point pairs of one route by
find_line_at_position, carrying the index of the first segment. -/
noncomputable def scanSegs (cx cy tol : ℝ) : List GPoint → ℕ → Option ℕ
  | p1 :: p2 :: t, i =>
      if is_point_on_line cx cy tol p1 p2 then some i
      else scanSegs cx cy tol (p2 :: t) (i + 1)
  | _, _ => none

open scoped Classical in
/-- The scan of the committed routes by find_line_at_position, in
ascending route order. -/
noncomputable def scanRouteSegs (cx cy tol : ℝ) : List (List GPoint) → ℕ → Option (ℕ × ℕ)
  | [], _ => none
  | rt :: rest, rid =>
      match scanSegs cx cy tol rt 0 with
      | some i => some (rid, i)
      | none => scanRouteSegs cx cy tol rest (rid + 1)

/-- find_line_at_position: scan the segments of the current route first,
then those of the committed routes in order, and return the first
segment within tolerance as (route reference, start index, end index). -/
noncomputable def find_line_at_position (s : Store) (cx cy tol : ℝ) :
    Option (RouteRef × ℕ × ℕ) :=
  match scanSegs cx cy tol s.current 0 with
  | some i => some (RouteRef.current, i, i + 1)
  | none =>
      match scanRouteSegs cx cy tol s.routes 0 with
      | some ri => some (RouteRef.committed ri.1, ri.2, ri.2 + 1)
      | none => none

/-- View a stored route of integer grid points as real points for the
geometry helpers (Python promotes the integers in the arithmetic). -/
noncomputable def toR (route : List GPoint) : List RPoint :=
  route.map (fun p => ((p.1 : ℝ), (p.2 : ℝ)))

/-- extract_single_route_features: base features
[start_x, start_y, end_x, end_y, length], extended by the middle point,
the third points and the start-to-end Euclidean distance when the
corresponding toggles are set. -/
noncomputable def extract_single_route_features (route : List RPoint)
    (include_middle include_thirds include_euclidean : Bool) : List ℝ :=
  [(route.headD (0, 0)).1, (route.headD (0, 0)).2,
   (route.getLastD (0, 0)).1, (route.getLastD (0, 0)).2,
   calculate_route_length route] ++
  (if include_middle then [(get_middle_point route).1, (get_middle_point route).2] else []) ++
  (if include_thirds then
    [(get_third_points route).1.1, (get_third_points route).1.2,
     (get_third_points route).2.1, (get_third_points route).2.2] else []) ++
  (if include_euclidean then [calculate_euclidean_distance route] else [])

/-- The loop of extract_route_features over the committed routes,
carrying the enumeration index: every route with at least two points
contributes one feature row and the label "Route i+1". -/
noncomputable def committedRows (include_middle include_thirds include_euclidean : Bool) :
    List (List GPoint) → ℕ → List (List ℝ) × List String
  | [], _ => ([], [])
  | rt :: rest, i =>
      let tail := committedRows include_middle include_thirds include_euclidean rest (i + 1)
      if 2 ≤ rt.length then
        (extract_single_route_features (toR rt) include_middle include_thirds include_euclidean
            :: tail.1,
         ("Route " ++ toString (i + 1)) :: tail.2)
      else tail

/-- The fixed feature-name schema of extract_route_features for a given
toggle combination. -/
def featureNames (include_middle include_thirds include_euclidean : Bool) : List String :=
  ["start_x", "start_y", "end_x", "end_y", "length"] ++
  (if include_middle then ["middle_x", "middle_y"] else []) ++
  (if include_thirds then ["third1_x", "third1_y", "third2_x", "third2_y"] else []) ++
  (if include_euclidean then ["euclidean_dist"] else [])

/-- extract_route_features: one row per committed route with at least
two points, in store order, followed by a row for the current route when
it has at least two points; returns (matrix rows, route labels, feature
names). -/
noncomputable def extract_route_features (s : Store)
    (include_middle include_thirds include_euclidean : Bool) :
    List (List ℝ) × List String × List String :=
  let comm := committedRows include_middle include_thirds include_euclidean s.routes 0
  let rows :=
    comm.1 ++
      (if 2 ≤ s.current.length then
        [extract_single_route_features (toR s.current)
          include_middle include_thirds include_euclidean] else [])
  let labels :=
    comm.2 ++ (if 2 ≤ s.current.length then ["Current Route"] else [])
  (rows, labels, featureNames include_middle include_thirds include_euclidean)

/-- The number of qualifying routes of a store: committed routes with at
least two points, plus the current route when it has at least two
points. -/
def qualifyingCount (s : Store) : ℕ :=
  (s.routes.countP (fun rt => decide (2 ≤ rt.length))) +
    (if 2 ≤ s.current.length then 1 else 0)

/-- The route labels extract_route_features is specified to produce:
"Route i+1" for each qualifying committed route in store order, then
"Current Route" when the current route qualifies. -/
def labelsSpec (s : Store) : List String :=
  ((s.routes.enum.filter (fun x => decide (2 ≤ x.2.length))).map
      (fun x => "Route " ++ toString (x.1 + 1))) ++
    (if 2 ≤ s.current.length then ["Current Route"] else [])

/-- extract_route_features with the store threaded through each read of
self.routes and self.current_route, making the absence of writes in the
source explicit: the method only reads the two fields. -/
noncomputable def extract_route_features_st (s : Store)
    (include_middle include_thirds include_euclidean : Bool) :
    (List (List ℝ) × List String × List String) × Store :=
  let readRoutes := (s.routes, s)
  let readCurrent := (readRoutes.2.current, readRoutes.2)
  let comm := committedRows include_middle include_thirds include_euclidean readRoutes.1 0
  let rows :=
    comm.1 ++
      (if 2 ≤ readCurrent.1.length then
        [extract_single_route_features (toR readCurrent.1)
          include_middle include_thirds include_euclidean] else [])
  let labels :=
    comm.2 ++ (if 2 ≤ readCurrent.1.length then ["Current Route"] else [])
  ((rows, labels, featureNames include_middle include_thirds include_euclidean), readCurrent.2)

/-! Helper lemmas on lists, shared by the claims below. -/

theorem getD_set_self {α : Type} (l : List α) (i : ℕ) (x d : α) (h : i < l.length) :
    (l.set i x).getD i d = x := by
  induction l generalizing i with
  | nil => simp at h
  | cons a t ih =>
    cases i with
    | zero => rfl
    | succ n =>
      simp only [List.set_cons_succ, List.getD_cons_succ]
      exact ih n (by simpa using h)

theorem set_getD_self {α : Type} (l : List α) (i : ℕ) (d : α) (h : i < l.length) :
    l.set i (l.getD i d) = l := by
  induction l generalizing i with
  | nil => simp at h
  | cons a t ih =>
    cases i with
    | zero => rfl
    | succ n =>
      simp only [List.getD_cons_succ, List.set_cons_succ]
      rw [ih n (by simpa using h)]

theorem mem_set_cases {α : Type} (l : List α) (i : ℕ) (x y : α)
    (h : y ∈ l.set i x) : y = x ∨ y ∈ l := by
  induction l generalizing i with
  | nil => simp at h
  | cons a t ih =>
    cases i with
    | zero =>
      rcases List.mem_cons.mp h with h1 | h1
      · exact Or.inl h1
      · exact Or.inr (List.mem_cons_of_mem a h1)
    | succ n =>
      rcases List.mem_cons.mp h with h1 | h1
      · exact Or.inr (h1 ▸ List.mem_cons_self a t)
      · rcases ih n h1 with h2 | h2
        · exact Or.inl h2
        · exact Or.inr (List.mem_cons_of_mem a h2)

theorem mem_of_mem_eraseIdx {α : Type} (l : List α) (i : ℕ) (y : α)
    (h : y ∈ l.eraseIdx i) : y ∈ l := by
  induction l generalizing i with
  | nil => simp [List.eraseIdx] at h
  | cons a t ih =>
    cases i with
    | zero => exact List.mem_cons_of_mem a h
    | succ n =>
      rcases List.mem_cons.mp h with h1 | h1
      · exact h1 ▸ List.mem_cons_self a t
      · exact List.mem_cons_of_mem a (ih n h1)

theorem getD_eraseIdx_ge {α : Type} (l : List α) (k j : ℕ) (d : α) (h : k ≤ j) :
    (l.eraseIdx k).getD j d = l.getD (j + 1) d := by
  induction l generalizing k j with
  | nil => simp [List.eraseIdx]
  | cons a t ih =>
    cases k with
    | zero => rfl
    | succ m =>
      cases j with
      | zero => exact absurd h (by simp)
      | succ n =>
        simp only [List.eraseIdx_cons_succ, List.getD_cons_succ]
        exact ih m n (Nat.succ_le_succ_iff.mp h)

theorem pyInsert_length {α : Type} (l : List α) (i : ℕ) (a : α) :
    (pyInsert l i a).length = l.length + 1 := by
  induction l generalizing i with
  | nil => cases i <;> rfl
  | cons b t ih =>
    cases i with
    | zero => rfl
    | succ n => simpa [pyInsert] using ih n

theorem length_eraseIdx_add_one {α : Type} (l : List α) (i : ℕ) (h : i < l.length) :
    (l.eraseIdx i).length + 1 = l.length := by
  induction l generalizing i with
  | nil => simp at h
  | cons a t ih =>
    cases i with
    | zero => rfl
    | succ n =>
      simp only [List.eraseIdx_cons_succ, List.length_cons]
      rw [ih n (by simpa using h)]

theorem eraseIdx_pyInsert {α : Type} (l : List α) (i : ℕ) (a : α) (h : i ≤ l.length) :
    (pyInsert l i a).eraseIdx i = l := by
  induction l generalizing i with
  | nil =>
    cases i with
    | zero => rfl
    | succ n => exact absurd h (by simp)
  | cons b t ih =>
    cases i with
    | zero => rfl
    | succ n =>
      simp only [pyInsert, List.eraseIdx_cons_succ]
      rw [ih n (by simpa using h)]

/-! Claim theorems. -/

/-- C1 counterexample: on the empty store the drag commit with committed
route index 0 does not silently return the store unchanged — the
unchecked Python assignment raises IndexError, modelled as none. -/
theorem c1_move_point_counterexample :
    move_point { routes := [], current := [] } (RouteRef.committed 0) 0 (0, 0) = none ∧
    move_point { routes := [], current := [] } (RouteRef.committed 0) 0 (0, 0) ≠
      some { routes := [], current := [] } := by
  constructor
  · rfl
  · intro h
    simp [move_point] at h

/-- C1 (amended): move_point overwrites the point at the given index when
the route reference and the index are in range; when either is out of
range the unchecked assignment of on_left_release fails with IndexError
(modelled as none) instead of being a silent no-op. -/
theorem c1_move_point_spec (s : Store) (p : GPoint) :
    (∀ i, i < s.current.length →
      move_point s RouteRef.current i p = some { s with current := s.current.set i p }) ∧
    (∀ i, ¬ i < s.current.length → move_point s RouteRef.current i p = none) ∧
    (∀ rid i, rid < s.routes.length → i < (s.routes.getD rid []).length →
      move_point s (RouteRef.committed rid) i p =
        some { s with routes := s.routes.set rid ((s.routes.getD rid []).set i p) }) ∧
    (∀ rid i, ¬ (rid < s.routes.length ∧ i < (s.routes.getD rid []).length) →
      move_point s (RouteRef.committed rid) i p = none) := by
  refine ⟨fun i h => ?_, fun i h => ?_, fun rid i h1 h2 => ?_, fun rid i h => ?_⟩
  · simp only [move_point]
    rw [if_pos h]
  · simp only [move_point]
    rw [if_neg h]
  · simp only [move_point]
    rw [if_pos ⟨h1, h2⟩]
  · simp only [move_point]
    rw [if_neg h]

/-- C1 witness: the amended statement on a concrete store, covering the
in-range current, out-of-range current, in-range committed and
out-of-range committed cases. -/
theorem c1_move_point_spec_witness :
    move_point { routes := [[(1, 1), (2, 2)]], current := [(5, 5)] }
        RouteRef.current 0 (3, 4) =
      some { routes := [[(1, 1), (2, 2)]], current := [(3, 4)] } ∧
    move_point { routes := [[(1, 1), (2, 2)]], current := [(5, 5)] }
        RouteRef.current 1 (3, 4) = none ∧
    move_point { routes := [[(1, 1), (2, 2)]], current := [(5, 5)] }
        (RouteRef.committed 0) 1 (3, 4) =
      some { routes := [[(1, 1), (3, 4)]], current := [(5, 5)] } ∧
    move_point { routes := [[(1, 1), (2, 2)]], current := [(5, 5)] }
        (RouteRef.committed 1) 0 (3, 4) = none := by
  refine ⟨?_, ?_, ?_, ?_⟩
  · exact (c1_move_point_spec _ _).1 0 (by decide)
  · exact (c1_move_point_spec _ _).2.1 1 (by decide)
  · exact (c1_move_point_spec _ _).2.2.1 0 1 (by decide) (by decide)
  · exact (c1_move_point_spec _ _).2.2.2 1 0 (by decide)

/-- C2: remove_point with a valid reference deletes the point at the
index; a committed route emptied by the removal is deleted from the
committed sequence and all subsequent committed indices shift down by
one; the current route is only emptied, never deleted; an out-of-range
index is a no-op; and a store whose committed routes are all nonempty
keeps that invariant through any removal. -/
theorem c2_remove_point_spec (s : Store) :
    (∀ i, i < s.current.length →
      remove_point s RouteRef.current i = { s with current := s.current.eraseIdx i }) ∧
    (∀ rid i, rid < s.routes.length → i < (s.routes.getD rid []).length →
      ((s.routes.getD rid []).eraseIdx i ≠ [] →
        remove_point s (RouteRef.committed rid) i =
          { s with routes := s.routes.set rid ((s.routes.getD rid []).eraseIdx i) }) ∧
      ((s.routes.getD rid []).eraseIdx i = [] →
        remove_point s (RouteRef.committed rid) i = { s with routes := s.routes.eraseIdx rid } ∧
        (remove_point s (RouteRef.committed rid) i).routes.length + 1 = s.routes.length ∧
        ∀ j d, rid ≤ j →
          (remove_point s (RouteRef.committed rid) i).routes.getD j d =
            s.routes.getD (j + 1) d)) ∧
    (∀ i, ¬ i < s.current.length → remove_point s RouteRef.current i = s) ∧
    (∀ rid i, ¬ (rid < s.routes.length ∧ i < (s.routes.getD rid []).length) →
      remove_point s (RouteRef.committed rid) i = s) ∧
    ((∀ rt ∈ s.routes, rt ≠ []) →
      ∀ r i rt2, rt2 ∈ (remove_point s r i).routes → rt2 ≠ []) := by
  refine ⟨fun i h => ?_, fun rid i h1 h2 => ⟨fun h3 => ?_, fun h3 => ?_⟩,
    fun i h => ?_, fun rid i h => ?_, ?_⟩
  · simp only [remove_point]
    rw [if_pos h]
  · simp only [remove_point]
    rw [if_pos ⟨h1, h2⟩, if_neg h3]
  · have hrw : remove_point s (RouteRef.committed rid) i =
        { s with routes := s.routes.eraseIdx rid } := by
      simp only [remove_point]
      rw [if_pos ⟨h1, h2⟩, if_pos h3]
    refine ⟨hrw, ?_, fun j d hj => ?_⟩
    · rw [hrw]
      exact length_eraseIdx_add_one s.routes rid h1
    · rw [hrw]
      exact getD_eraseIdx_ge s.routes rid j d hj
  · simp only [remove_point]
    rw [if_neg h]
  · simp only [remove_point]
    rw [if_neg h]
  · intro hinv r i rt2 hmem
    match r with
    | RouteRef.current =>
      have hcur : (remove_point s RouteRef.current i).routes = s.routes := by
        simp only [remove_point]
        by_cases h : i < s.current.length
        · rw [if_pos h]
        · rw [if_neg h]
      rw [hcur] at hmem
      exact hinv rt2 hmem
    | RouteRef.committed rid =>
      by_cases h : rid < s.routes.length ∧ i < (s.routes.getD rid []).length
      · by_cases h3 : (s.routes.getD rid []).eraseIdx i = []
        · have hrw : (remove_point s (RouteRef.committed rid) i).routes =
              s.routes.eraseIdx rid := by
            simp only [remove_point]
            rw [if_pos h, if_pos h3]
          rw [hrw] at hmem
          exact hinv rt2 (mem_of_mem_eraseIdx _ _ _ hmem)
        · have hrw : (remove_point s (RouteRef.committed rid) i).routes =
              s.routes.set rid ((s.routes.getD rid []).eraseIdx i) := by
            simp only [remove_point]
            rw [if_pos h, if_neg h3]
          rw [hrw] at hmem
          rcases mem_set_cases _ _ _ _ hmem with h4 | h4
          · exact h4 ▸ h3
          · exact hinv rt2 h4
      · have hrw : remove_point s (RouteRef.committed rid) i = s := by
          simp only [remove_point]
          rw [if_neg h]
        rw [hrw] at hmem
        exact hinv rt2 hmem

/-- C2 witness: the statement on a concrete store, covering a valid
current removal, a committed removal that keeps the route, a committed
removal that empties and deletes the route with the index shift, the
out-of-range no-ops, and the no-empty-route invariant. -/
theorem c2_remove_point_spec_witness :
    remove_point { routes := [[(1, 1), (2, 2)], [(9, 9)]], current := [(5, 5)] }
        RouteRef.current 0 =
      { routes := [[(1, 1), (2, 2)], [(9, 9)]], current := [] } ∧
    remove_point { routes := [[(1, 1), (2, 2)], [(9, 9)]], current := [(5, 5)] }
        (RouteRef.committed 0) 1 =
      { routes := [[(1, 1)], [(9, 9)]], current := [(5, 5)] } ∧
    remove_point { routes := [[(1, 1), (2, 2)], [(9, 9)]], current := [(5, 5)] }
        (RouteRef.committed 1) 0 =
      { routes := [[(1, 1), (2, 2)]], current := [(5, 5)] } ∧
    (remove_point { routes := [[(1, 1), (2, 2)], [(9, 9)]], current := [(5, 5)] }
        (RouteRef.committed 1) 0).routes.getD 1 [] =
      ({ routes := [[(1, 1), (2, 2)], [(9, 9)]], current := [(5, 5)] } : Store).routes.getD 2 [] ∧
    remove_point { routes := [[(1, 1), (2, 2)], [(9, 9)]], current := [(5, 5)] }
        RouteRef.current 3 =
      { routes := [[(1, 1), (2, 2)], [(9, 9)]], current := [(5, 5)] } ∧
    remove_point { routes := [[(1, 1), (2, 2)], [(9, 9)]], current := [(5, 5)] }
        (RouteRef.committed 2) 0 =
      { routes := [[(1, 1), (2, 2)], [(9, 9)]], current := [(5, 5)] } ∧
    ∀ rt2 ∈ (remove_point { routes := [[(1, 1), (2, 2)], [(9, 9)]], current := [(5, 5)] }
        (RouteRef.committed 1) 0).routes, rt2 ≠ [] := by
  refine ⟨?_, ?_, ?_, ?_, ?_, ?_, ?_⟩
  · exact (c2_remove_point_spec _).1 0 (by decide)
  · exact ((c2_remove_point_spec _).2.1 0 1 (by decide) (by decide)).1 (by decide)
  · exact (((c2_remove_point_spec _).2.1 1 0 (by decide) (by decide)).2 (by decide)).1
  · exact (((c2_remove_point_spec _).2.1 1 0 (by decide) (by decide)).2 (by decide)).2.2 1 []
      (by decide)
  · exact (c2_remove_point_spec _).2.2.1 3 (by decide)
  · exact (c2_remove_point_spec _).2.2.2.1 2 0 (by decide)
  · exact (c2_remove_point_spec _).2.2.2.2 (by decide) (RouteRef.committed 1) 0

/-- C6: converting a grid point to its device position and back yields
the same point, for both axes. -/
theorem c6_grid_roundtrip (p : ℤ × ℤ) :
    (canvas_to_coord_x (coord_to_canvas_x p.1), canvas_to_coord_y (coord_to_canvas_y p.2)) = p := by
  have key : ∀ c : ℤ, pyRound ((c : ℝ)) = c := by
    intro c
    unfold pyRound
    rw [Int.fract_intCast]
    rw [if_pos (by norm_num : (0 : ℝ) < 1 / 2)]
    exact Int.floor_intCast c
  have hx : (coord_to_canvas_x p.1 - origin_x) / grid_size = (p.1 : ℝ) := by
    simp [coord_to_canvas_x, origin_x, grid_size]
  have hy : (coord_to_canvas_y p.2 - origin_y) / grid_size = (p.2 : ℝ) := by
    simp [coord_to_canvas_y, origin_y, grid_size]
  rw [canvas_to_coord_x, canvas_to_coord_y, hx, hy, key p.1, key p.2]

/-- C8: inserting a point at an index between 0 and the route length and
then removing at the same index restores the store exactly (the
referenced route regains its point sequence and no other route is
touched); for a committed route this needs the data-model invariant
that no stored committed route is empty. -/
theorem c8_insert_then_remove (s : Store) (p : GPoint) :
    (∀ i, i ≤ s.current.length →
      remove_point (insert_point_in_route s RouteRef.current i p) RouteRef.current i = s) ∧
    (∀ rid i, rid < s.routes.length → i ≤ (s.routes.getD rid []).length →
      s.routes.getD rid [] ≠ [] →
      remove_point (insert_point_in_route s (RouteRef.committed rid) i p)
        (RouteRef.committed rid) i = s) := by
  constructor
  · intro i h
    have h1 : i < (pyInsert s.current i p).length := by
      rw [pyInsert_length]; omega
    simp only [insert_point_in_route, remove_point]
    rw [if_pos h1, eraseIdx_pyInsert s.current i p h]
  · intro rid i h1 h2 h3
    have hset : ((s.routes.set rid (pyInsert (s.routes.getD rid []) i p)).getD rid []) =
        pyInsert (s.routes.getD rid []) i p :=
      getD_set_self s.routes rid _ [] h1
    have hlen : rid < (s.routes.set rid (pyInsert (s.routes.getD rid []) i p)).length := by
      simpa using h1
    have hlen2 : i < (pyInsert (s.routes.getD rid []) i p).length := by
      rw [pyInsert_length]; omega
    simp only [insert_point_in_route]
    rw [if_pos h1]
    simp only [remove_point, hset]
    rw [if_pos ⟨hlen, hlen2⟩, eraseIdx_pyInsert _ i p h2, if_neg h3, List.set_set,
      set_getD_self s.routes rid [] h1]

/-- C8 witness: insert then remove at index 1 of the current route and
of committed route 0 of a concrete store both restore it. -/
theorem c8_insert_then_remove_witness :
    remove_point (insert_point_in_route
        { routes := [[(1, 1), (2, 2)]], current := [(5, 5), (6, 6)] }
        RouteRef.current 1 (7, 7)) RouteRef.current 1 =
      { routes := [[(1, 1), (2, 2)]], current := [(5, 5), (6, 6)] } ∧
    remove_point (insert_point_in_route
        { routes := [[(1, 1), (2, 2)]], current := [(5, 5), (6, 6)] }
        (RouteRef.committed 0) 1 (7, 7)) (RouteRef.committed 0) 1 =
      { routes := [[(1, 1), (2, 2)]], current := [(5, 5), (6, 6)] } := by
  constructor
  · exact (c8_insert_then_remove _ _).1 1 (by decide)
  · exact (c8_insert_then_remove _ _).2 0 1 (by decide) (by decide) (by decide)

/-! Geometry helper lemmas. -/

theorem sqrt_hundred : Real.sqrt 100 = 10 := by
  have h : (100 : ℝ) = 10 ^ 2 := by norm_num
  rw [h, Real.sqrt_sq (by norm_num : (0 : ℝ) ≤ 10)]

theorem segDist_nonneg (p q : RPoint) : 0 ≤ segDist p q :=
  Real.sqrt_nonneg _

theorem segDist_symm (p q : RPoint) : segDist p q = segDist q p := by
  unfold segDist
  congr 1
  ring

theorem route_length_nonneg : ∀ l : List RPoint, 0 ≤ calculate_route_length l
  | [] => le_refl 0
  | [_] => le_refl 0
  | a :: b :: t => by
    have h := route_length_nonneg (b :: t)
    simp only [calculate_route_length]
    exact add_nonneg (segDist_nonneg a b) h

theorem getLastD_cons_irrel {α : Type} (b : α) (t : List α) (x y : α) :
    (b :: t).getLastD x = (b :: t).getLastD y := by
  rw [List.getLastD_cons x b t, List.getLastD_cons y b t]

theorem walk_step (a b c : RPoint) (t : List RPoint) (d : ℝ) (h : segDist a b < d) :
    walkRoute a b (c :: t) d = walkRoute b c t (d - segDist a b) := by
  rw [walkRoute, if_neg (not_le.mpr h)]

theorem walk_past_last (t : List RPoint) : ∀ (a b : RPoint) (d : ℝ),
    calculate_route_length (a :: b :: t) < d → walkRoute a b t d = (b :: t).getLastD (0, 0) := by
  induction t with
  | nil =>
    intro a b d h
    have hlt : segDist a b < d := by
      simpa [calculate_route_length] using h
    rw [walkRoute, if_neg (not_le.mpr hlt)]
    simp [List.getLastD]
  | cons c t2 ih =>
    intro a b d h
    have hnn : 0 ≤ calculate_route_length (b :: c :: t2) := route_length_nonneg _
    have hlt : segDist a b < d := by
      simp only [calculate_route_length] at h
      simp only [calculate_route_length] at hnn
      linarith
    have h2 : calculate_route_length (b :: c :: t2) < d - segDist a b := by
      simp only [calculate_route_length] at h ⊢
      linarith
    rw [walk_step a b c t2 d hlt, ih b c (d - segDist a b) h2]
    exact getLastD_cons_irrel c t2 b (0, 0)

/-- C3: get_point_at_distance returns the first point for a distance at
most 0, the last point for a distance beyond the total length, walks the
cumulative segment lengths (the step conjunct) and linearly interpolates
inside the matched segment, returns the segment start on a zero-length
matched segment, maps the concrete route [(0,0), (10,0), (10,10)] at
distance 15 to (10, 5), and returns the single point of a one-point
route or the fallback (0, 0) for an empty route. -/
theorem c3_point_at_distance_spec :
    (∀ (a b : RPoint) (t : List RPoint) (d : ℝ), d ≤ 0 →
      get_point_at_distance (a :: b :: t) d = a) ∧
    (∀ (a b : RPoint) (t : List RPoint) (d : ℝ),
      calculate_route_length (a :: b :: t) < d →
      get_point_at_distance (a :: b :: t) d = (a :: b :: t).getLastD (0, 0)) ∧
    (∀ (a b : RPoint) (t : List RPoint) (d : ℝ), 0 < d → d ≤ segDist a b →
      segDist a b ≠ 0 →
      get_point_at_distance (a :: b :: t) d =
        (a.1 + d / segDist a b * (b.1 - a.1), a.2 + d / segDist a b * (b.2 - a.2))) ∧
    (∀ (a b : RPoint) (t : List RPoint) (d : ℝ), d ≤ segDist a b → segDist a b = 0 →
      walkRoute a b t d = a) ∧
    (∀ (a b c : RPoint) (t : List RPoint) (d : ℝ), segDist a b < d →
      get_point_at_distance (a :: b :: c :: t) d =
        get_point_at_distance (b :: c :: t) (d - segDist a b)) ∧
    get_point_at_distance [((0 : ℝ), (0 : ℝ)), (10, 0), (10, 10)] 15 = (10, 5) ∧
    (∀ (p : RPoint) (d : ℝ), get_point_at_distance [p] d = p) ∧
    (∀ d : ℝ, get_point_at_distance ([] : List RPoint) d = (0, 0)) := by
  refine ⟨fun a b t d h => ?_, fun a b t d h => ?_, fun a b t d h0 h1 h2 => ?_,
    fun a b t d h1 h2 => ?_, fun a b c t d h => ?_, ?_, fun p d => rfl, fun d => rfl⟩
  · simp only [get_point_at_distance]
    rw [if_pos h]
  · have hnn : 0 ≤ calculate_route_length (a :: b :: t) := route_length_nonneg _
    simp only [get_point_at_distance]
    rw [if_neg (not_le.mpr (lt_of_le_of_lt hnn h)), walk_past_last t a b d h]
    exact (getLastD_cons_irrel b t a (0, 0)).symm
  · simp only [get_point_at_distance]
    rw [if_neg (not_le.mpr h0)]
    cases t with
    | nil => rw [walkRoute, if_pos h1, if_neg h2]
    | cons c t2 => rw [walkRoute, if_pos h1, if_neg h2]
  · cases t with
    | nil => rw [walkRoute, if_pos h1, if_pos h2]
    | cons c t2 => rw [walkRoute, if_pos h1, if_pos h2]
  · have hpos : 0 < d := lt_of_le_of_lt (segDist_nonneg a b) h
    have hpos2 : 0 < d - segDist a b := by linarith
    simp only [get_point_at_distance]
    rw [if_neg (not_le.mpr hpos), if_neg (not_le.mpr hpos2), walk_step a b c t d h]
  · norm_num [get_point_at_distance, walkRoute, segDist, sqrt_hundred]

/-- C3 witness: every conjunct of the statement instantiated on concrete
routes built from (0,0), (10,0), (10,10). -/
theorem c3_point_at_distance_spec_witness :
    get_point_at_distance [((0 : ℝ), (0 : ℝ)), (10, 0), (10, 10)] 0 = ((0 : ℝ), (0 : ℝ)) ∧
    get_point_at_distance [((0 : ℝ), (0 : ℝ)), (10, 0), (10, 10)] 21 = ((10 : ℝ), (10 : ℝ)) ∧
    get_point_at_distance [((0 : ℝ), (0 : ℝ)), (10, 0)] 5 = ((5 : ℝ), (0 : ℝ)) ∧
    walkRoute ((0 : ℝ), (0 : ℝ)) ((0 : ℝ), (0 : ℝ)) [] 0 = ((0 : ℝ), (0 : ℝ)) ∧
    get_point_at_distance [((0 : ℝ), (0 : ℝ)), (10, 0), (10, 10)] 15 =
      get_point_at_distance [((10 : ℝ), (0 : ℝ)), (10, 10)] 5 := by
  have hseg : segDist ((0 : ℝ), (0 : ℝ)) (10, 0) = 10 := by
    simp only [segDist]
    norm_num
    exact sqrt_hundred
  have hzero : segDist ((0 : ℝ), (0 : ℝ)) ((0 : ℝ), (0 : ℝ)) = 0 := by
    simp [segDist]
  refine ⟨?_, ?_, ?_, ?_, ?_⟩
  · exact c3_point_at_distance_spec.1 _ _ _ 0 le_rfl
  · exact c3_point_at_distance_spec.2.1 _ _ _ 21
      (by norm_num [calculate_route_length, segDist, sqrt_hundred])
  · exact (c3_point_at_distance_spec.2.2.1 ((0 : ℝ), (0 : ℝ)) (10, 0) [] 5 (by norm_num)
      (by rw [hseg]; norm_num) (by rw [hseg]; norm_num)).trans (by rw [hseg]; norm_num)
  · exact c3_point_at_distance_spec.2.2.2.1 _ _ [] 0 (by rw [hzero]) hzero
  · exact (c3_point_at_distance_spec.2.2.2.2.1 ((0 : ℝ), (0 : ℝ)) (10, 0) (10, 10) [] 15
      (by rw [hseg]; norm_num)).trans (by rw [hseg]; norm_num)

theorem route_length_append_single (t : List RPoint) : ∀ (a x : RPoint),
    calculate_route_length (a :: (t ++ [x])) =
      calculate_route_length (a :: t) + segDist ((a :: t).getLastD (0, 0)) x := by
  induction t with
  | nil =>
    intro a x
    simp [calculate_route_length, List.getLastD]
  | cons b t2 ih =>
    intro a x
    show calculate_route_length (a :: b :: (t2 ++ [x])) =
      calculate_route_length (a :: b :: t2) + segDist ((a :: b :: t2).getLastD (0, 0)) x
    simp only [calculate_route_length]
    rw [ih b x]
    rw [show ((a :: b :: t2).getLastD (0, 0)) = (b :: t2).getLastD a from
      List.getLastD_cons (0, 0) a (b :: t2)]
    rw [getLastD_cons_irrel b t2 a (0, 0)]
    ring

/-- C9: the total arc length of a route is invariant under reversing the
order of its points. -/
theorem c9_length_reverse (route : List RPoint) :
    calculate_route_length route.reverse = calculate_route_length route := by
  induction route with
  | nil => rfl
  | cons a t ih =>
    cases t with
    | nil => rfl
    | cons b t2 =>
      obtain ⟨c, l2, hc⟩ := List.exists_cons_of_ne_nil
        (l := (b :: t2).reverse) (by simp)
      rw [List.reverse_cons, hc, List.cons_append, route_length_append_single l2 c a, ← hc, ih]
      have hlast : ((b :: t2).reverse).getLastD (0, 0) = b := by
        rw [List.getLastD_eq_getLast?, List.getLast?_reverse]
        rfl
      rw [hlast, segDist_symm b a]
      simp only [calculate_route_length]
      ring

/-! Hit-testing helper lemmas. -/

theorem sqrt_gt_eight {a : ℝ} (h : 64 < a) : ¬ Real.sqrt a ≤ 8 := by
  rw [not_le, Real.lt_sqrt (by norm_num : (0 : ℝ) ≤ 8)]
  nlinarith [h]

theorem scanPoints_none (cx cy tol : ℝ) : ∀ (l : List GPoint) (k : ℕ),
    (∀ p ∈ l, ¬ pointDist cx cy p ≤ tol) → scanPoints cx cy tol l k = none := by
  intro l
  induction l with
  | nil => intro k _; rfl
  | cons p t ih =>
    intro k h
    rw [scanPoints, if_neg (h p (List.mem_cons_self p t))]
    exact ih (k + 1) (fun q hq => h q (List.mem_cons_of_mem p hq))

theorem scanPoints_first (cx cy tol : ℝ) : ∀ (l : List GPoint) (k i : ℕ),
    i < l.length → pointDist cx cy (l.getD i (0, 0)) ≤ tol →
    (∀ j < i, ¬ pointDist cx cy (l.getD j (0, 0)) ≤ tol) →
    scanPoints cx cy tol l k = some (k + i) := by
  intro l
  induction l with
  | nil => intro k i h _ _; simp at h
  | cons p t ih =>
    intro k i hlen hhit hmiss
    cases i with
    | zero =>
      rw [scanPoints, if_pos (by simpa using hhit)]
      simp
    | succ n =>
      have hmiss0 : ¬ pointDist cx cy p ≤ tol := by
        have h0 := hmiss 0 (Nat.succ_pos n)
        simpa using h0
      rw [scanPoints, if_neg hmiss0]
      have hrec := ih (k + 1) n (by simpa using hlen) (by simpa using hhit)
        (fun j hj => by
          have hj2 := hmiss (j + 1) (Nat.succ_lt_succ hj)
          simpa using hj2)
      rw [hrec]
      congr 1
      omega

theorem scanRoutes_none (cx cy tol : ℝ) : ∀ (rs : List (List GPoint)) (k : ℕ),
    (∀ rt ∈ rs, ∀ p ∈ rt, ¬ pointDist cx cy p ≤ tol) →
    scanRoutes cx cy tol rs k = none := by
  intro rs
  induction rs with
  | nil => intro k _; rfl
  | cons rt rest ih =>
    intro k h
    rw [scanRoutes, scanPoints_none cx cy tol rt 0 (h rt (List.mem_cons_self rt rest))]
    exact ih (k + 1) (fun rt2 h2 p hp => h rt2 (List.mem_cons_of_mem rt h2) p hp)

theorem scanRoutes_first (cx cy tol : ℝ) : ∀ (rs : List (List GPoint)) (k rid i : ℕ),
    rid < rs.length →
    (∀ rid2 < rid, ∀ p ∈ rs.getD rid2 [], ¬ pointDist cx cy p ≤ tol) →
    i < (rs.getD rid []).length →
    pointDist cx cy ((rs.getD rid []).getD i (0, 0)) ≤ tol →
    (∀ j < i, ¬ pointDist cx cy ((rs.getD rid []).getD j (0, 0)) ≤ tol) →
    scanRoutes cx cy tol rs k = some (k + rid, i) := by
  intro rs
  induction rs with
  | nil => intro k rid i h _ _ _ _; simp at h
  | cons rt rest ih =>
    intro k rid i hrid hprev hi hhit hmiss
    cases rid with
    | zero =>
      rw [scanRoutes, scanPoints_first cx cy tol rt 0 i (by simpa using hi)
        (by simpa using hhit) (fun j hj => by
          have hj2 := hmiss j hj
          simpa using hj2)]
      simp
    | succ m =>
      have hall : ∀ p ∈ rt, ¬ pointDist cx cy p ≤ tol := by
        have h0 := hprev 0 (Nat.succ_pos m)
        simpa using h0
      rw [scanRoutes, scanPoints_none cx cy tol rt 0 hall]
      have hrec := ih (k + 1) m i (by simpa using hrid)
        (fun r2 h2 p hp => by
          have h3 := hprev (r2 + 1) (Nat.succ_lt_succ h2)
          simp only [List.getD_cons_succ] at h3
          exact h3 p hp)
        (by simpa using hi) (by simpa using hhit)
        (fun j hj => by
          have hj2 := hmiss j hj
          simpa using hj2)
      have he : k + 1 + m = k + (m + 1) := by omega
      rw [he] at hrec
      exact hrec

/-- C4: find_point_at_position scans the current route first and then
the committed routes in ascending order, point by point, and returns the
first point whose device distance to the position is within tolerance:
it returns none when every point misses, the earliest hit of the current
route even when a committed point coincides, and otherwise the earliest
hit in the committed scan order. -/
theorem c4_find_point_spec (s : Store) (cx cy tol : ℝ) :
    ((∀ p ∈ s.current, ¬ pointDist cx cy p ≤ tol) →
     (∀ rt ∈ s.routes, ∀ p ∈ rt, ¬ pointDist cx cy p ≤ tol) →
      find_point_at_position s cx cy tol = none) ∧
    (∀ i, i < s.current.length → pointDist cx cy (s.current.getD i (0, 0)) ≤ tol →
      (∀ j < i, ¬ pointDist cx cy (s.current.getD j (0, 0)) ≤ tol) →
      find_point_at_position s cx cy tol = some (RouteRef.current, i)) ∧
    (∀ rid i, (∀ p ∈ s.current, ¬ pointDist cx cy p ≤ tol) →
      rid < s.routes.length →
      (∀ rid2 < rid, ∀ p ∈ s.routes.getD rid2 [], ¬ pointDist cx cy p ≤ tol) →
      i < (s.routes.getD rid []).length →
      pointDist cx cy ((s.routes.getD rid []).getD i (0, 0)) ≤ tol →
      (∀ j < i, ¬ pointDist cx cy ((s.routes.getD rid []).getD j (0, 0)) ≤ tol) →
      find_point_at_position s cx cy tol = some (RouteRef.committed rid, i)) := by
  refine ⟨fun h1 h2 => ?_, fun i hi hhit hmiss => ?_,
    fun rid i hcur hrid hprev hi hhit hmiss => ?_⟩
  · rw [find_point_at_position, scanPoints_none cx cy tol s.current 0 h1,
      scanRoutes_none cx cy tol s.routes 0 h2]
  · rw [find_point_at_position, scanPoints_first cx cy tol s.current 0 i hi hhit hmiss]
    simp
  · rw [find_point_at_position, scanPoints_none cx cy tol s.current 0 hcur,
      scanRoutes_first cx cy tol s.routes 0 rid i hrid hprev hi hhit hmiss]
    simp

/-- C4 witness: on concrete stores around the origin with tolerance 8, a
store with only far points yields none; a current route whose second
point coincides with a committed point yields the current reference
(scan-order precedence); and a store whose current route misses yields
the earliest committed hit. -/
theorem c4_find_point_spec_witness :
    find_point_at_position { routes := [[(100, 100)]], current := [(100, 100)] } 0 0 8 = none ∧
    find_point_at_position { routes := [[(0, 0)]], current := [(7, 7), (0, 0)] } 0 0 8 =
      some (RouteRef.current, 1) ∧
    find_point_at_position { routes := [[(100, 100)], [(5, 5), (0, 0)]], current := [(100, 100)] }
        0 0 8 = some (RouteRef.committed 1, 1) := by
  have hfar : ∀ m n : ℤ, 64 < (0 - (origin_x + (m : ℝ) * grid_size)) ^ 2 +
      (0 - (origin_y + (n : ℝ) * grid_size)) ^ 2 →
      ¬ pointDist 0 0 (m, n) ≤ 8 := by
    intro m n h
    simp only [pointDist, coord_to_canvas_x, coord_to_canvas_y]
    exact sqrt_gt_eight h
  have h100 : ¬ pointDist 0 0 ((100 : ℤ), (100 : ℤ)) ≤ 8 := by
    apply hfar
    norm_num [origin_x, origin_y, grid_size]
  have h77 : ¬ pointDist 0 0 ((7 : ℤ), (7 : ℤ)) ≤ 8 := by
    apply hfar
    norm_num [origin_x, origin_y, grid_size]
  have h55 : ¬ pointDist 0 0 ((5 : ℤ), (5 : ℤ)) ≤ 8 := by
    apply hfar
    norm_num [origin_x, origin_y, grid_size]
  have h00 : pointDist 0 0 ((0 : ℤ), (0 : ℤ)) ≤ 8 := by
    have hz : pointDist 0 0 ((0 : ℤ), (0 : ℤ)) = 0 := by
      simp [pointDist, coord_to_canvas_x, coord_to_canvas_y, origin_x, origin_y, grid_size]
    rw [hz]
    norm_num
  refine ⟨?_, ?_, ?_⟩
  · refine (c4_find_point_spec _ 0 0 8).1 ?_ ?_
    · intro p hp
      simp only [List.mem_singleton] at hp
      rw [hp]
      exact h100
    · intro rt hrt p hp
      simp only [List.mem_singleton] at hrt
      rw [hrt] at hp
      simp only [List.mem_singleton] at hp
      rw [hp]
      exact h100
  · refine (c4_find_point_spec _ 0 0 8).2.1 1 (by norm_num) h00 ?_
    intro j hj
    interval_cases j
    exact h77
  · refine (c4_find_point_spec _ 0 0 8).2.2 1 1 ?_ (by norm_num) ?_ (by norm_num) h00 ?_
    · intro p hp
      simp only [List.mem_singleton] at hp
      rw [hp]
      exact h100
    · intro rid2 hrid2
      interval_cases rid2
      intro p hp
      simp only [List.getD_cons_zero, List.mem_singleton] at hp
      rw [hp]
      exact h100
    · intro j hj
      interval_cases j
      exact h55

theorem scanSegs_none (cx cy tol : ℝ) : ∀ (l : List GPoint) (k : ℕ),
    (∀ i, i + 1 < l.length →
      ¬ is_point_on_line cx cy tol (l.getD i (0, 0)) (l.getD (i + 1) (0, 0))) →
    scanSegs cx cy tol l k = none
  | [], _, _ => rfl
  | [_], _, _ => rfl
  | p1 :: p2 :: t, k, h => by
    have h0 : ¬ is_point_on_line cx cy tol p1 p2 := by
      have h1 := h 0 (by simp)
      simpa using h1
    rw [scanSegs, if_neg h0]
    exact scanSegs_none cx cy tol (p2 :: t) (k + 1)
      (fun i hi => by
        have h2 := h (i + 1) (by simpa using hi)
        simpa using h2)

theorem scanSegs_first (cx cy tol : ℝ) : ∀ (l : List GPoint) (k i : ℕ),
    i + 1 < l.length →
    is_point_on_line cx cy tol (l.getD i (0, 0)) (l.getD (i + 1) (0, 0)) →
    (∀ j < i, ¬ is_point_on_line cx cy tol (l.getD j (0, 0)) (l.getD (j + 1) (0, 0))) →
    scanSegs cx cy tol l k = some (k + i)
  | [], _, i, h, _, _ => absurd h (by simp)
  | [_], _, i, h, _, _ => absurd h (by simp)
  | p1 :: p2 :: t, k, i, hlen, hhit, hmiss => by
    cases i with
    | zero =>
      rw [scanSegs, if_pos (by simpa using hhit)]
      simp
    | succ n =>
      have h0 : ¬ is_point_on_line cx cy tol p1 p2 := by
        have h1 := hmiss 0 (Nat.succ_pos n)
        simpa using h1
      rw [scanSegs, if_neg h0]
      have hrec := scanSegs_first cx cy tol (p2 :: t) (k + 1) n (by simpa using hlen)
        (by simpa using hhit)
        (fun j hj => by
          have hj2 := hmiss (j + 1) (Nat.succ_lt_succ hj)
          simpa using hj2)
      rw [hrec]
      congr 1
      omega

theorem scanRouteSegs_none (cx cy tol : ℝ) : ∀ (rs : List (List GPoint)) (k : ℕ),
    (∀ rt ∈ rs, ∀ i, i + 1 < rt.length →
      ¬ is_point_on_line cx cy tol (rt.getD i (0, 0)) (rt.getD (i + 1) (0, 0))) →
    scanRouteSegs cx cy tol rs k = none := by
  intro rs
  induction rs with
  | nil => intro k _; rfl
  | cons rt rest ih =>
    intro k h
    rw [scanRouteSegs, scanSegs_none cx cy tol rt 0 (h rt (List.mem_cons_self rt rest))]
    exact ih (k + 1) (fun rt2 h2 => h rt2 (List.mem_cons_of_mem rt h2))

theorem scanRouteSegs_first (cx cy tol : ℝ) : ∀ (rs : List (List GPoint)) (k rid i : ℕ),
    rid < rs.length →
    (∀ rid2 < rid, ∀ j, j + 1 < (rs.getD rid2 []).length →
      ¬ is_point_on_line cx cy tol ((rs.getD rid2 []).getD j (0, 0))
        ((rs.getD rid2 []).getD (j + 1) (0, 0))) →
    i + 1 < (rs.getD rid []).length →
    is_point_on_line cx cy tol ((rs.getD rid []).getD i (0, 0))
      ((rs.getD rid []).getD (i + 1) (0, 0)) →
    (∀ j < i, ¬ is_point_on_line cx cy tol ((rs.getD rid []).getD j (0, 0))
      ((rs.getD rid []).getD (j + 1) (0, 0))) →
    scanRouteSegs cx cy tol rs k = some (k + rid, i) := by
  intro rs
  induction rs with
  | nil => intro k rid i h _ _ _ _; simp at h
  | cons rt rest ih =>
    intro k rid i hrid hprev hi hhit hmiss
    cases rid with
    | zero =>
      rw [scanRouteSegs, scanSegs_first cx cy tol rt 0 i (by simpa using hi)
        (by simpa using hhit) (fun j hj => by
          have hj2 := hmiss j hj
          simpa using hj2)]
      simp
    | succ m =>
      have hall : ∀ j, j + 1 < rt.length →
          ¬ is_point_on_line cx cy tol (rt.getD j (0, 0)) (rt.getD (j + 1) (0, 0)) := by
        have h0 := hprev 0 (Nat.succ_pos m)
        simpa using h0
      rw [scanRouteSegs, scanSegs_none cx cy tol rt 0 hall]
      have hrec := ih (k + 1) m i (by simpa using hrid)
        (fun r2 h2 => by
          have h3 := hprev (r2 + 1) (Nat.succ_lt_succ h2)
          simpa only [List.getD_cons_succ] using h3)
        (by simpa using hi) (by simpa using hhit)
        (fun j hj => by
          have hj2 := hmiss j hj
          simpa using hj2)
      have he : k + 1 + m = k + (m + 1) := by omega
      rw [he] at hrec
      exact hrec

/-- C5: find_line_at_position examines consecutive point pairs in the
scan order of C4 (current route first, then committed routes, segments
in order), matching a segment exactly when it is non-degenerate and the
distance from the position to the closest point A + t (B - A), with t
the clamped projection parameter, is within tolerance: a degenerate
segment (squared canvas length 0, in particular any point paired with
itself) never matches, the clamp keeps t in [0, 1], and the first
matching segment in scan order is returned as (ref, i, i + 1). -/
theorem c5_find_line_spec (s : Store) (cx cy tol : ℝ) :
    (∀ p1 p2 : GPoint, lineLenSq p1 p2 = 0 → ¬ is_point_on_line cx cy tol p1 p2) ∧
    (∀ p : GPoint, lineLenSq p p = 0) ∧
    (∀ p1 p2 : GPoint, 0 ≤ lineParam cx cy p1 p2 ∧ lineParam cx cy p1 p2 ≤ 1) ∧
    ((∀ i, i + 1 < s.current.length →
      ¬ is_point_on_line cx cy tol (s.current.getD i (0, 0)) (s.current.getD (i + 1) (0, 0))) →
     (∀ rt ∈ s.routes, ∀ i, i + 1 < rt.length →
      ¬ is_point_on_line cx cy tol (rt.getD i (0, 0)) (rt.getD (i + 1) (0, 0))) →
      find_line_at_position s cx cy tol = none) ∧
    (∀ i, i + 1 < s.current.length →
      is_point_on_line cx cy tol (s.current.getD i (0, 0)) (s.current.getD (i + 1) (0, 0)) →
      (∀ j < i, ¬ is_point_on_line cx cy tol (s.current.getD j (0, 0))
        (s.current.getD (j + 1) (0, 0))) →
      find_line_at_position s cx cy tol = some (RouteRef.current, i, i + 1)) ∧
    (∀ rid i, (∀ j, j + 1 < s.current.length →
      ¬ is_point_on_line cx cy tol (s.current.getD j (0, 0)) (s.current.getD (j + 1) (0, 0))) →
      rid < s.routes.length →
      (∀ rid2 < rid, ∀ j, j + 1 < (s.routes.getD rid2 []).length →
        ¬ is_point_on_line cx cy tol ((s.routes.getD rid2 []).getD j (0, 0))
          ((s.routes.getD rid2 []).getD (j + 1) (0, 0))) →
      i + 1 < (s.routes.getD rid []).length →
      is_point_on_line cx cy tol ((s.routes.getD rid []).getD i (0, 0))
        ((s.routes.getD rid []).getD (i + 1) (0, 0)) →
      (∀ j < i, ¬ is_point_on_line cx cy tol ((s.routes.getD rid []).getD j (0, 0))
        ((s.routes.getD rid []).getD (j + 1) (0, 0))) →
      find_line_at_position s cx cy tol = some (RouteRef.committed rid, i, i + 1)) := by
  refine ⟨fun p1 p2 h hline => hline.1 h, fun p => by simp [lineLenSq],
    fun p1 p2 => ⟨le_max_left 0 _, max_le (by norm_num) (min_le_left 1 _)⟩,
    fun h1 h2 => ?_, fun i hi hhit hmiss => ?_,
    fun rid i hcur hrid hprev hi hhit hmiss => ?_⟩
  · rw [find_line_at_position, scanSegs_none cx cy tol s.current 0 h1,
      scanRouteSegs_none cx cy tol s.routes 0 h2]
  · rw [find_line_at_position, scanSegs_first cx cy tol s.current 0 i hi hhit hmiss]
    simp
  · rw [find_line_at_position, scanSegs_none cx cy tol s.current 0 hcur,
      scanRouteSegs_first cx cy tol s.routes 0 rid i hrid hprev hi hhit hmiss]
    simp

/-- C5 witness: with tolerance 8, canvas position (20, 0) lies on the
segment from grid (0, 0) to (2, 0); a far position matches nothing; the
current route wins when it has a matching segment, otherwise the first
committed segment is returned; a point paired with itself is degenerate
and never matches. -/
theorem c5_find_line_spec_witness :
    find_line_at_position { routes := [[(0, 0), (2, 0)]], current := [(3, 3)] } 1000 1000 8 =
      none ∧
    find_line_at_position { routes := [[(0, 0), (2, 0)]], current := [(0, 0), (2, 0)] } 20 0 8 =
      some (RouteRef.current, 0, 1) ∧
    find_line_at_position { routes := [[(0, 0), (2, 0)]], current := [(3, 3)] } 20 0 8 =
      some (RouteRef.committed 0, 0, 1) ∧
    ¬ is_point_on_line 20 0 8 ((1 : ℤ), (1 : ℤ)) ((1 : ℤ), (1 : ℤ)) ∧
    (0 ≤ lineParam 20 0 ((0 : ℤ), (0 : ℤ)) ((2 : ℤ), (0 : ℤ)) ∧
      lineParam 20 0 ((0 : ℤ), (0 : ℤ)) ((2 : ℤ), (0 : ℤ)) ≤ 1) := by
  have hLen : lineLenSq (0 : GPoint) ((2 : ℤ), (0 : ℤ)) = 1600 := by
    norm_num [lineLenSq, coord_to_canvas_x, coord_to_canvas_y, origin_x, origin_y, grid_size]
  have hT : lineParam 20 0 (0 : GPoint) ((2 : ℤ), (0 : ℤ)) = 1 / 2 := by
    norm_num [lineParam, lineLenSq, coord_to_canvas_x, coord_to_canvas_y, origin_x, origin_y,
      grid_size, min_def, max_def]
  have hHit : is_point_on_line 20 0 8 (0 : GPoint) ((2 : ℤ), (0 : ℤ)) := by
    constructor
    · rw [hLen]
      norm_num
    · have hd : segClosestDist 20 0 (0 : GPoint) ((2 : ℤ), (0 : ℤ)) = 0 := by
        norm_num [segClosestDist, hT, coord_to_canvas_x, coord_to_canvas_y, origin_x,
          origin_y, grid_size, Real.sqrt_zero]
      rw [hd]
      norm_num
  have hT2 : lineParam 1000 1000 (0 : GPoint) ((2 : ℤ), (0 : ℤ)) = 1 := by
    norm_num [lineParam, lineLenSq, coord_to_canvas_x, coord_to_canvas_y, origin_x, origin_y,
      grid_size, min_def, max_def]
  have hD2 : segClosestDist 1000 1000 (0 : GPoint) ((2 : ℤ), (0 : ℤ)) =
      Real.sqrt 1921600 := by
    norm_num [segClosestDist, hT2, coord_to_canvas_x, coord_to_canvas_y, origin_x, origin_y,
      grid_size]
  have hMiss : ¬ is_point_on_line 1000 1000 8 (0 : GPoint) ((2 : ℤ), (0 : ℤ)) := by
    intro hl
    have hd := hl.2
    rw [hD2] at hd
    exact sqrt_gt_eight (by norm_num) hd
  refine ⟨?_, ?_, ?_, ?_, ?_⟩
  · refine (c5_find_line_spec _ 1000 1000 8).2.2.2.1 ?_ ?_
    · intro i hi
      simp at hi
    · intro rt hrt i hi
      simp only [List.mem_singleton] at hrt
      subst hrt
      simp only [List.length_cons, List.length_nil] at hi
      have hi0 : i = 0 := by omega
      subst hi0
      exact hMiss
  · refine (c5_find_line_spec _ 20 0 8).2.2.2.2.1 0 (by norm_num) hHit ?_
    intro j hj
    exact absurd hj (by omega)
  · refine (c5_find_line_spec _ 20 0 8).2.2.2.2.2 0 0 ?_ (by norm_num) ?_ (by norm_num)
      hHit ?_
    · intro j hj
      simp at hj
    · intro rid2 hrid2
      exact absurd hrid2 (by omega)
    · intro j hj
      exact absurd hj (by omega)
  · exact (c5_find_line_spec { routes := [], current := [] } 20 0 8).1 _ _
      ((c5_find_line_spec { routes := [], current := [] } 20 0 8).2.1 ((1 : ℤ), (1 : ℤ)))
  · exact (c5_find_line_spec { routes := [], current := [] } 20 0 8).2.2.1
      ((0 : ℤ), (0 : ℤ)) ((2 : ℤ), (0 : ℤ))

/-! Feature-extraction helper lemmas. -/

theorem committedRows_length (im it ie : Bool) : ∀ (routes : List (List GPoint)) (k : ℕ),
    (committedRows im it ie routes k).1.length =
      routes.countP (fun rt => decide (2 ≤ rt.length)) ∧
    (committedRows im it ie routes k).2.length =
      routes.countP (fun rt => decide (2 ≤ rt.length)) := by
  intro routes
  induction routes with
  | nil => intro k; exact ⟨rfl, rfl⟩
  | cons rt rest ih =>
    intro k
    by_cases h : 2 ≤ rt.length
    · constructor <;>
        simp [committedRows, List.countP_cons, h, (ih (k + 1)).1, (ih (k + 1)).2]
    · constructor <;>
        simp [committedRows, List.countP_cons, h, (ih (k + 1)).1, (ih (k + 1)).2]

theorem committedRows_labels (im it ie : Bool) : ∀ (routes : List (List GPoint)) (k : ℕ),
    (committedRows im it ie routes k).2 =
      ((List.enumFrom k routes).filter (fun x => decide (2 ≤ x.2.length))).map
        (fun x => "Route " ++ toString (x.1 + 1)) := by
  intro routes
  induction routes with
  | nil => intro k; rfl
  | cons rt rest ih =>
    intro k
    by_cases h : 2 ≤ rt.length
    · simp [committedRows, List.enumFrom, List.filter_cons, h, ih (k + 1)]
    · simp [committedRows, List.enumFrom, List.filter_cons, h, ih (k + 1)]

/-- C7: extract_route_features produces exactly one feature row per
qualifying route (at least two points): the qualifying committed routes
in store order labeled "Route i+1", then the current route labeled
"Current Route" when it qualifies; the row count equals the number of
qualifying routes and equals the label count, and with zero qualifying
routes both the matrix and the label list are empty; the feature-name
schema depends only on the toggles. -/
theorem c7_extract_features_spec (s : Store) (im it ie : Bool) :
    (extract_route_features s im it ie).1.length = qualifyingCount s ∧
    (extract_route_features s im it ie).2.1.length =
      (extract_route_features s im it ie).1.length ∧
    (extract_route_features s im it ie).2.1 = labelsSpec s ∧
    (qualifyingCount s = 0 →
      (extract_route_features s im it ie).1 = [] ∧
      (extract_route_features s im it ie).2.1 = []) ∧
    (extract_route_features s im it ie).2.2 = featureNames im it ie := by
  have hc := committedRows_length im it ie s.routes 0
  have hl := committedRows_labels im it ie s.routes 0
  refine ⟨?_, ?_, ?_, ?_, rfl⟩
  · simp only [extract_route_features, qualifyingCount, List.length_append, hc.1]
    by_cases h : 2 ≤ s.current.length <;> simp [h]
  · simp only [extract_route_features, List.length_append, hc.1, hc.2]
    by_cases h : 2 ≤ s.current.length <;> simp [h]
  · simp only [extract_route_features, labelsSpec, hl, List.enum]
  · intro h0
    have hcur : ¬ 2 ≤ s.current.length := by
      intro h
      rw [qualifyingCount, if_pos h] at h0
      omega
    have hcount : s.routes.countP (fun rt => decide (2 ≤ rt.length)) = 0 := by
      rw [qualifyingCount, if_neg hcur] at h0
      omega
    constructor
    · have hz : (extract_route_features s im it ie).1.length = 0 := by
        simp only [extract_route_features, List.length_append, hc.1, hcount]
        simp [hcur]
      exact List.length_eq_zero.mp hz
    · have hz : (extract_route_features s im it ie).2.1.length = 0 := by
        simp only [extract_route_features, List.length_append, hc.2, hcount]
        simp [hcur]
      exact List.length_eq_zero.mp hz

/-- C7 witness: on the empty store (zero qualifying routes) extraction
returns the empty matrix and the empty label list. -/
theorem c7_extract_features_spec_witness :
    (extract_route_features { routes := [], current := [] } true false true).1 = [] ∧
    (extract_route_features { routes := [], current := [] } true false true).2.1 = [] :=
  (c7_extract_features_spec { routes := [], current := [] } true false true).2.2.2.1
    (by decide)

/-- C10: feature extraction only reads the store: the state-threaded
version returns the store unchanged alongside exactly the value of the
pure extraction (which, with the geometry helpers it calls, is a
function of the route lists alone). -/
theorem c10_extract_read_only (s : Store) (im it ie : Bool) :
    (extract_route_features_st s im it ie).2 = s ∧
    (extract_route_features_st s im it ie).1 = extract_route_features s im it ie :=
  ⟨rfl, rfl⟩

end TrackingRoutesDrawer
